import Mathlib

/-!
Verification of the `squeue` static circular-buffer queue (squeue.hpp).

The development shallowly embeds the two versions of the C++ class
`SQueue<T_QUEUE_ELEMENTS, QUEUE_SIZE>`:

* version 1.1.0: write at `queue_head` then increment `queue_head`;
  `front()` reads `buffer[queue_tail]`;
* version 1.0.0: increment `queue_head` then write at the new
  `queue_head`; `front()` reads `buffer[(queue_tail + 1) % QUEUE_SIZE]`.

The private uint32 fields are modelled as `Nat`: every index stays below
`QUEUE_SIZE` and the element count stays at most `QUEUE_SIZE` in valid
states, so no uint32 wrap-around can occur and `Nat` arithmetic agrees
with the C++ one.  The storage array `buffer[QUEUE_SIZE]` is modelled as
a total function `Nat → α`; all accesses made by the code are proved to
land below `QUEUE_SIZE`.
-/

/-- Result code of `push` (`t_squeue_rc` in squeue.hpp v1.1.0; the
`ERROR` value is declared in the C++ enum but never produced). -/
inductive Rc where
  | OK : Rc
  | OVERFLOW : Rc
  | ERROR : Rc
deriving DecidableEq, Repr

/-- Result code of `push` in squeue.hpp v1.0.0 (`t_overflow`). -/
inductive Toverflow where
  | BUFFER_OK : Toverflow
  | BUFFER_OVERFLOW : Toverflow
deriving DecidableEq, Repr

/-- The private state of the C++ class `SQueue<T, QUEUE_SIZE>`
(both versions have exactly these fields; v1.0.0 calls the flag
`buffer_overflow`).  The capacity `QUEUE_SIZE` is a template argument in
C++ and is passed explicitly to each operation here. -/
structure SQueue (α : Type) where
  buffer : Nat → α
  queue_head : Nat
  queue_tail : Nat
  num_elements_stored : Nat
  queue_overflow : Bool

namespace SQueue

variable {α : Type}

/-- The constructor `SQueue()`: indexes and count start at zero, the
overflow flag false.  The C++ array `buffer` is left uninitialized, so
the initial storage contents `b` are arbitrary. -/
def mkInit (b : Nat → α) : SQueue α :=
  ⟨b, 0, 0, 0, false⟩

/-- `clear()` of v1.1.0. -/
def clear (q : SQueue α) : SQueue α :=
  { q with queue_head := 0, queue_tail := 0,
           num_elements_stored := 0, queue_overflow := false }

/-- `size()` of v1.1.0. -/
def size (q : SQueue α) : Nat :=
  q.num_elements_stored

/-- `empty()` of v1.1.0. -/
def empty (q : SQueue α) : Bool :=
  q.num_elements_stored == 0

/-- `full()` of v1.1.0: `num_elements_stored >= QUEUE_SIZE`. -/
def full (N : Nat) (q : SQueue α) : Bool :=
  decide (N ≤ q.num_elements_stored)

/-- `front()` of v1.1.0: `nullptr` when empty, otherwise the address of
`buffer[queue_tail]`; the returned pointer is modelled as an `Option`
holding the pointed-to value. -/
def front (q : SQueue α) : Option α :=
  if q.empty then none else some (q.buffer q.queue_tail)

/-- `back()` of v1.1.0: `nullptr` when empty, otherwise
`buffer[queue_head == 0 ? QUEUE_SIZE - 1 : queue_head - 1]`. -/
def back (N : Nat) (q : SQueue α) : Option α :=
  if q.empty then none
  else some (q.buffer (if q.queue_head == 0 then N - 1 else q.queue_head - 1))

/-- `push(element)` of v1.1.0: on a full queue set the overflow flag and
advance the tail, otherwise clear the flag and increment the count; in
both cases write the element at `queue_head`, advance `queue_head`, and
return `OVERFLOW` or `OK` according to the flag. -/
def push (N : Nat) (element : α) (q : SQueue α) : Rc × SQueue α :=
  let q1 :=
    if full N q then
      { q with queue_overflow := true,
               queue_tail := (q.queue_tail + 1) % N }
    else
      { q with queue_overflow := false,
               num_elements_stored := q.num_elements_stored + 1 }
  let q2 :=
    { q1 with buffer := Function.update q1.buffer q1.queue_head element,
              queue_head := (q1.queue_head + 1) % N }
  if q2.queue_overflow then (Rc.OVERFLOW, q2) else (Rc.OK, q2)

/-- `pop()` of v1.1.0: a no-op on an empty queue, otherwise advance the
tail, decrement the count and clear the overflow flag. -/
def pop (N : Nat) (q : SQueue α) : SQueue α :=
  if q.empty then q
  else
    { q with queue_tail := (q.queue_tail + 1) % N,
             num_elements_stored := q.num_elements_stored - 1,
             queue_overflow := false }

/-- `contains(element)` of v1.1.0 (compiled under
`SQUEUE_ENABLE_CONTAINS`): scan the `num_elements_stored` valid slots
from `queue_tail` forward modulo `QUEUE_SIZE`, returning true on the
first `==` match. -/
def contains [BEq α] (N : Nat) (element : α) (q : SQueue α) : Bool :=
  (List.range q.num_elements_stored).any
    (fun i => element == q.buffer ((q.queue_tail + i) % N))

/-- The logical element `i` slots after the tail. -/
def elemAt (N : Nat) (q : SQueue α) (i : Nat) : α :=
  q.buffer ((q.queue_tail + i) % N)

/-- Abstraction of a queue state to the list of its logically valid
elements, oldest first: the `num_elements_stored` slots starting at
`queue_tail` modulo `QUEUE_SIZE`. -/
def toList (N : Nat) (q : SQueue α) : List α :=
  (List.range q.num_elements_stored).map (elemAt N q)

/-- Bounds part of the structural invariant: both indexes below the
capacity and the count at most the capacity. -/
def BInv (N : Nat) (q : SQueue α) : Prop :=
  q.queue_head < N ∧ q.queue_tail < N ∧ q.num_elements_stored ≤ N

/-- Full structural invariant: bounds plus the head/tail/count
relation. -/
def Inv (N : Nat) (q : SQueue α) : Prop :=
  BInv N q ∧ q.queue_head = (q.queue_tail + q.num_elements_stored) % N

end SQueue

namespace SQueueV0

variable {α : Type}

/-- The constructor of v1.0.0: same zero-initialization, `buffer`
uninitialized. -/
def mk0 (b : Nat → α) : SQueue α :=
  ⟨b, 0, 0, 0, false⟩

/-- `clear()` of v1.0.0. -/
def clear (q : SQueue α) : SQueue α :=
  { q with queue_head := 0, queue_tail := 0,
           num_elements_stored := 0, queue_overflow := false }

/-- `empty()` of v1.0.0. -/
def empty (q : SQueue α) : Bool :=
  q.num_elements_stored == 0

/-- `size()` of v1.0.0. -/
def size (q : SQueue α) : Nat :=
  q.num_elements_stored

/-- `full()` of v1.0.0: `size() >= QUEUE_SIZE`. -/
def full (N : Nat) (q : SQueue α) : Bool :=
  decide (N ≤ size q)

/-- `front()` of v1.0.0: `nullptr` when empty, otherwise the address of
`buffer[(queue_tail + 1) % QUEUE_SIZE]`. -/
def front (N : Nat) (q : SQueue α) : Option α :=
  if empty q then none else some (q.buffer ((q.queue_tail + 1) % N))

/-- `back()` of v1.0.0: `nullptr` when empty, otherwise the address of
`buffer[queue_head]`. -/
def back (q : SQueue α) : Option α :=
  if empty q then none else some (q.buffer q.queue_head)

/-- `push(element)` of v1.0.0: on a full queue set the overflow flag and
advance the tail (the flag is NOT cleared on a non-full push); then
increment `queue_head` FIRST and write the element at the new
`queue_head`. -/
def push (N : Nat) (element : α) (q : SQueue α) : Toverflow × SQueue α :=
  let q1 :=
    if full N q then
      { q with queue_overflow := true,
               queue_tail := (q.queue_tail + 1) % N }
    else
      { q with num_elements_stored := q.num_elements_stored + 1 }
  let q2 :=
    { q1 with queue_head := (q1.queue_head + 1) % N,
              buffer := Function.update q1.buffer ((q1.queue_head + 1) % N)
                element }
  if q2.queue_overflow then (Toverflow.BUFFER_OVERFLOW, q2)
  else (Toverflow.BUFFER_OK, q2)

/-- `pop()` of v1.0.0: identical to v1.1.0. -/
def pop (N : Nat) (q : SQueue α) : SQueue α :=
  if empty q then q
  else
    { q with queue_tail := (q.queue_tail + 1) % N,
             num_elements_stored := q.num_elements_stored - 1,
             queue_overflow := false }

end SQueueV0

/-! ## Operation traces, for the v1.1.0 / v1.0.0 equivalence claim -/

/-- A mutating operation on the queue (the sequences over which the two
versions are compared). -/
inductive Op (α : Type) where
  | push : α → Op α
  | pop : Op α
  | clear : Op α
deriving DecidableEq, Repr

/-- The observation recorded after one operation: whether a `push`
signalled an eviction (`none` for `pop`/`clear`), and the results of
`front`, `back`, `size` and `empty` on the new state. -/
structure Obs (α : Type) where
  evicted : Option Bool
  front : Option α
  back : Option α
  size : Nat
  isEmpty : Bool
deriving DecidableEq, Repr

/-- One v1.1.0 step: the next state and the recorded observation. -/
def stepV1 {α : Type} (N : Nat) (q : SQueue α) : Op α → SQueue α × Option Bool
  | Op.push a =>
      let r := SQueue.push N a q
      (r.2, some (r.1 == Rc.OVERFLOW))
  | Op.pop => (SQueue.pop N q, none)
  | Op.clear => (SQueue.clear q, none)

/-- The v1.1.0 observation trace of a sequence of operations. -/
def traceV1 {α : Type} (N : Nat) : List (Op α) → SQueue α → List (Obs α)
  | [], _ => []
  | op :: ops, q =>
      let r := stepV1 N q op
      ⟨r.2, SQueue.front r.1, SQueue.back N r.1, SQueue.size r.1,
       SQueue.empty r.1⟩ :: traceV1 N ops r.1

/-- One v1.0.0 step: the next state and the recorded observation. -/
def stepV0 {α : Type} (N : Nat) (q : SQueue α) : Op α → SQueue α × Option Bool
  | Op.push a =>
      let r := SQueueV0.push N a q
      (r.2, some (r.1 == Toverflow.BUFFER_OVERFLOW))
  | Op.pop => (SQueueV0.pop N q, none)
  | Op.clear => (SQueueV0.clear q, none)

/-- The v1.0.0 observation trace of a sequence of operations. -/
def traceV0 {α : Type} (N : Nat) : List (Op α) → SQueue α → List (Obs α)
  | [], _ => []
  | op :: ops, q =>
      let r := stepV0 N q op
      ⟨r.2, SQueueV0.front N r.1, SQueueV0.back r.1, SQueueV0.size r.1,
       SQueueV0.empty r.1⟩ :: traceV0 N ops r.1

namespace SQueue

variable {α : Type}

/-- States of the v1.1.0 queue reachable from the constructor through
`push`, `pop` and `clear` (the constructor leaves `buffer`
uninitialized, hence arbitrary). -/
inductive Reachable (N : Nat) : SQueue α → Prop where
  | init : ∀ b : Nat → α, Reachable N (mkInit b)
  | push : ∀ (q : SQueue α) (a : α), Reachable N q →
      Reachable N (SQueue.push N a q).2
  | pop : ∀ q : SQueue α, Reachable N q → Reachable N (SQueue.pop N q)
  | clear : ∀ q : SQueue α, Reachable N q → Reachable N (SQueue.clear q)

/-- Push a whole list of elements in order (discarding result codes). -/
def pushAll (N : Nat) (l : List α) (q : SQueue α) : SQueue α :=
  l.foldl (fun q a => (push N a q).2) q

/-- Pop `k` times. -/
def popN (N : Nat) : Nat → SQueue α → SQueue α
  | 0, q => q
  | k + 1, q => popN N k (pop N q)

/-- The values observed by calling `front` before each of `k`
successive pops. -/
def fronts (N : Nat) : Nat → SQueue α → List (Option α)
  | 0, _ => []
  | k + 1, q => front q :: fronts N k (pop N q)

end SQueue

/-- Coupling relation between a v1.1.0 state `q1` and a v1.0.0 state
`q0`: equal indexes, counts and flags, the v1.0.0 flag only set on a
full queue, structural bounds, the head/tail/count relation, and the
logical windows holding the same elements with the v1.0.0 window
shifted one slot forward. -/
def SimR {α : Type} (N : Nat) (q1 q0 : SQueue α) : Prop :=
  q1.queue_head = q0.queue_head ∧
  q1.queue_tail = q0.queue_tail ∧
  q1.num_elements_stored = q0.num_elements_stored ∧
  q1.queue_overflow = q0.queue_overflow ∧
  (q0.queue_overflow = true → N ≤ q0.num_elements_stored) ∧
  q1.queue_head < N ∧ q1.queue_tail < N ∧ q1.num_elements_stored ≤ N ∧
  q1.queue_head = (q1.queue_tail + q1.num_elements_stored) % N ∧
  (∀ i, i < q1.num_elements_stored →
    q1.buffer ((q1.queue_tail + i) % N) =
      q0.buffer ((q1.queue_tail + 1 + i) % N))

/-! ## Basic characterizations of the v1.1.0 operations -/

namespace SQueue

variable {α : Type}

theorem empty_eq_true_iff {q : SQueue α} :
    q.empty = true ↔ q.num_elements_stored = 0 := by
  simp [empty]

theorem empty_eq_false_iff {q : SQueue α} :
    q.empty = false ↔ q.num_elements_stored ≠ 0 := by
  simp [empty]

theorem full_eq_true_iff {N : Nat} {q : SQueue α} :
    full N q = true ↔ N ≤ q.num_elements_stored := by
  simp [full]

/-- Two offsets below `N` that land on the same slot of the circular
buffer are equal. -/
theorem mod_add_cancel {N t i j : Nat} (hi : i < N) (hj : j < N)
    (h : (t + i) % N = (t + j) % N) : i = j := by
  have h2 : i % N = j % N := Nat.ModEq.add_left_cancel' t h
  rwa [Nat.mod_eq_of_lt hi, Nat.mod_eq_of_lt hj] at h2

theorem push_snd_full {N : Nat} {q : SQueue α} {a : α}
    (h : N ≤ q.num_elements_stored) :
    (push N a q).2 = ⟨Function.update q.buffer q.queue_head a,
      (q.queue_head + 1) % N, (q.queue_tail + 1) % N,
      q.num_elements_stored, true⟩ := by
  simp [push, full, h]

theorem push_snd_not_full {N : Nat} {q : SQueue α} {a : α}
    (h : q.num_elements_stored < N) :
    (push N a q).2 = ⟨Function.update q.buffer q.queue_head a,
      (q.queue_head + 1) % N, q.queue_tail,
      q.num_elements_stored + 1, false⟩ := by
  have h' : ¬ N ≤ q.num_elements_stored := Nat.not_le.mpr h
  simp [push, full, h']

theorem push_fst_full {N : Nat} {q : SQueue α} {a : α}
    (h : N ≤ q.num_elements_stored) :
    (push N a q).1 = Rc.OVERFLOW := by
  simp [push, full, h]

theorem push_fst_not_full {N : Nat} {q : SQueue α} {a : α}
    (h : q.num_elements_stored < N) :
    (push N a q).1 = Rc.OK := by
  have h' : ¬ N ≤ q.num_elements_stored := Nat.not_le.mpr h
  simp [push, full, h']

theorem pop_empty_eq {N : Nat} {q : SQueue α}
    (h : q.num_elements_stored = 0) : pop N q = q := by
  simp [pop, empty, h]

theorem pop_not_empty {N : Nat} {q : SQueue α}
    (h : q.num_elements_stored ≠ 0) :
    pop N q = ⟨q.buffer, q.queue_head, (q.queue_tail + 1) % N,
      q.num_elements_stored - 1, false⟩ := by
  simp [pop, empty, h]

/-! ## The list abstraction -/

theorem toList_length {N : Nat} {q : SQueue α} :
    (toList N q).length = q.num_elements_stored := by
  simp [toList]

theorem toList_getElem? {N : Nat} {q : SQueue α} {i : Nat}
    (h : i < q.num_elements_stored) :
    (toList N q)[i]? = some (elemAt N q i) := by
  simp [toList, List.getElem?_map, List.getElem?_range h]

theorem toList_eq_nil {N : Nat} {q : SQueue α}
    (h : q.num_elements_stored = 0) : toList N q = [] := by
  simp [toList, h]

/-- A non-full push appends the element to the abstract list. -/
theorem toList_push_not_full {N : Nat} {q : SQueue α} {a : α}
    (hInv : Inv N q) (h : q.num_elements_stored < N) :
    toList N (push N a q).2 = toList N q ++ [a] := by
  obtain ⟨⟨hh, ht, hc⟩, hrel⟩ := hInv
  rw [push_snd_not_full h]
  simp only [toList, elemAt, List.range_succ, List.map_append,
    List.map_singleton]
  congr 1
  · apply List.map_congr_left
    intro x hx
    rw [List.mem_range] at hx
    apply Function.update_noteq
    intro heq
    rw [hrel] at heq
    exact absurd (mod_add_cancel (lt_trans hx h) h heq) (Nat.ne_of_lt hx)
  · rw [← hrel, Function.update_same]

/-- On a full queue, `push` advances the tail, so logical slot `i` of
the new state is logical slot `1 + i` of the old one (below the last
slot, which holds the new element). -/
theorem elemAt_push_full {N : Nat} {q : SQueue α} {a : α} {i : Nat}
    (hInv : Inv N q) (hN : 0 < N) (h : N ≤ q.num_elements_stored)
    (hi : 1 + i < N) :
    elemAt N (push N a q).2 i = elemAt N q (1 + i) := by
  obtain ⟨⟨hh, ht, hc⟩, hrel⟩ := hInv
  have hcN : q.num_elements_stored = N := Nat.le_antisymm hc h
  have hhead : q.queue_head = q.queue_tail := by
    rw [hrel, hcN, Nat.add_mod_right, Nat.mod_eq_of_lt ht]
  rw [push_snd_full h]
  simp only [elemAt]
  rw [Nat.mod_add_mod, Nat.add_assoc]
  have hne : (q.queue_tail + (1 + i)) % N ≠ q.queue_head := by
    rw [hhead]
    intro heq
    have h0 : (q.queue_tail + (1 + i)) % N = (q.queue_tail + 0) % N := by
      rw [heq, Nat.add_zero, Nat.mod_eq_of_lt ht]
    have := mod_add_cancel hi hN h0
    omega
  rw [Function.update_noteq hne]

/-- On a full queue, `push` stores the new element in the last logical
slot. -/
theorem elemAt_push_full_last {N : Nat} {q : SQueue α} {a : α}
    (hInv : Inv N q) (hN : 0 < N) (h : N ≤ q.num_elements_stored) :
    elemAt N (push N a q).2 (N - 1) = a := by
  obtain ⟨⟨hh, ht, hc⟩, hrel⟩ := hInv
  have hcN : q.num_elements_stored = N := Nat.le_antisymm hc h
  have hhead : q.queue_head = q.queue_tail := by
    rw [hrel, hcN, Nat.add_mod_right, Nat.mod_eq_of_lt ht]
  rw [push_snd_full h]
  simp only [elemAt]
  have hidx : ((q.queue_tail + 1) % N + (N - 1)) % N = q.queue_head := by
    rw [Nat.mod_add_mod, Nat.add_assoc]
    have h1 : 1 + (N - 1) = N := by omega
    rw [h1, Nat.add_mod_right, Nat.mod_eq_of_lt ht, hhead]
  rw [hidx, Function.update_same]

/-- A push on a full queue drops the oldest element and appends the new
one to the abstract list. -/
theorem toList_push_full {N : Nat} {q : SQueue α} {a : α}
    (hInv : Inv N q) (hN : 0 < N) (h : N ≤ q.num_elements_stored) :
    toList N (push N a q).2 = (toList N q).drop 1 ++ [a] := by
  have hc : q.num_elements_stored ≤ N := hInv.1.2.2
  have hcN : q.num_elements_stored = N := Nat.le_antisymm hc h
  have hcount : (push N a q).2.num_elements_stored = N := by
    rw [push_snd_full h]; exact hcN
  have hlen : (toList N q).length = N := by rw [toList_length, hcN]
  apply List.ext_getElem?
  intro i
  rw [List.getElem?_append, List.length_drop, hlen]
  by_cases hi : i < N
  · rw [toList_getElem? (by rw [hcount]; exact hi)]
    by_cases hi2 : i < N - 1
    · rw [if_pos hi2, List.getElem?_drop,
        toList_getElem? (by omega : 1 + i < q.num_elements_stored),
        elemAt_push_full hInv hN h (by omega)]
    · have hiN : i = N - 1 := by omega
      rw [if_neg hi2, hiN, elemAt_push_full_last hInv hN h]
      simp
  · rw [if_neg (by omega), List.getElem?_eq_none (by rw [toList_length, hcount]; omega),
      List.getElem?_eq_none (by simp; omega)]

/-- `pop` advances the tail, so logical slot `i` of the popped state is
logical slot `1 + i` of the old one. -/
theorem elemAt_pop {N : Nat} {q : SQueue α} {i : Nat}
    (h : q.num_elements_stored ≠ 0) :
    elemAt N (pop N q) i = elemAt N q (1 + i) := by
  rw [pop_not_empty h]
  simp only [elemAt]
  rw [Nat.mod_add_mod, Nat.add_assoc]

/-- Popping a non-empty queue drops the head of the abstract list. -/
theorem toList_pop {N : Nat} {q : SQueue α}
    (h : q.num_elements_stored ≠ 0) :
    toList N (pop N q) = (toList N q).drop 1 := by
  have hcount : (pop N q).num_elements_stored = q.num_elements_stored - 1 := by
    rw [pop_not_empty h]
  apply List.ext_getElem?
  intro i
  rw [List.getElem?_drop]
  by_cases hi : i < q.num_elements_stored - 1
  · rw [toList_getElem? (by rw [hcount]; exact hi),
      toList_getElem? (by omega : 1 + i < q.num_elements_stored),
      elemAt_pop h]
  · rw [List.getElem?_eq_none (by rw [toList_length, hcount]; omega),
      List.getElem?_eq_none (by rw [toList_length]; omega)]


/-- `front` returns the head of the abstract list (given the tail index
is in range). -/
theorem front_toList {N : Nat} {q : SQueue α} (ht : q.queue_tail < N) :
    front q = (toList N q).head? := by
  rw [List.head?_eq_getElem?]
  cases h0 : q.num_elements_stored with
  | zero => rw [List.getElem?_eq_none (by rw [toList_length]; omega)]
            simp [front, empty, h0]
  | succ c =>
      rw [toList_getElem? (by omega)]
      simp only [front, empty, h0]
      simp [elemAt, Nat.mod_eq_of_lt ht]

/-- `back` returns the last element of the abstract list (given the
structural invariant). -/
theorem back_toList {N : Nat} {q : SQueue α} (hInv : Inv N q)
    (hN : 0 < N) :
    back N q = (toList N q).getLast? := by
  obtain ⟨⟨hh, ht, hc⟩, hrel⟩ := hInv
  rw [List.getLast?_eq_getElem?, toList_length]
  cases h0 : q.num_elements_stored with
  | zero => rw [List.getElem?_eq_none (by rw [toList_length]; omega)]
            simp [back, empty, h0]
  | succ c =>
      rw [toList_getElem? (by omega)]
      simp only [back, empty, h0]
      simp only [elemAt, Nat.add_sub_cancel]
      have hm : (q.queue_tail + c) % N < N := Nat.mod_lt _ hN
      have hhead : q.queue_head = ((q.queue_tail + c) % N + 1) % N := by
        rw [hrel, h0, Nat.mod_add_mod, Nat.add_assoc]
      by_cases hcase : (q.queue_tail + c) % N + 1 = N
      · have h1 : q.queue_head = 0 := by
          rw [hhead, hcase, Nat.mod_self]
        have h2 : (q.queue_tail + c) % N = N - 1 := by omega
        simp [h1, h2]
      · have h1 : q.queue_head = (q.queue_tail + c) % N + 1 := by
          rw [hhead, Nat.mod_eq_of_lt (by omega)]
        have h2 : q.queue_head ≠ 0 := by omega
        simp only [h1]
        simp [Nat.beq_eq_true_eq, Nat.succ_ne_zero]

/-! ## Invariant preservation -/

theorem inv_mkInit {N : Nat} (hN : 0 < N) (b : Nat → α) :
    Inv N (mkInit b) := by
  refine ⟨⟨hN, hN, Nat.zero_le _⟩, ?_⟩
  simp [mkInit]

theorem inv_clear {N : Nat} (hN : 0 < N) (q : SQueue α) :
    Inv N (clear q) := by
  refine ⟨⟨hN, hN, Nat.zero_le _⟩, ?_⟩
  simp [clear]

theorem inv_push {N : Nat} {q : SQueue α} (hN : 0 < N) (hInv : Inv N q)
    (a : α) : Inv N (push N a q).2 := by
  obtain ⟨⟨hh, ht, hc⟩, hrel⟩ := hInv
  by_cases h : N ≤ q.num_elements_stored
  · rw [push_snd_full h]
    refine ⟨⟨Nat.mod_lt _ hN, Nat.mod_lt _ hN, hc⟩, ?_⟩
    show (q.queue_head + 1) % N = ((q.queue_tail + 1) % N + q.num_elements_stored) % N
    rw [hrel, Nat.mod_add_mod, Nat.mod_add_mod]
    congr 1
    omega
  · have h' : q.num_elements_stored < N := Nat.lt_of_not_le h
    rw [push_snd_not_full h']
    refine ⟨⟨Nat.mod_lt _ hN, ht, h'⟩, ?_⟩
    show (q.queue_head + 1) % N = (q.queue_tail + (q.num_elements_stored + 1)) % N
    rw [hrel, Nat.mod_add_mod, Nat.add_assoc]

theorem inv_pop {N : Nat} {q : SQueue α} (hInv : Inv N q) :
    Inv N (pop N q) := by
  obtain ⟨⟨hh, ht, hc⟩, hrel⟩ := hInv
  by_cases h : q.num_elements_stored = 0
  · rw [pop_empty_eq h]
    exact ⟨⟨hh, ht, hc⟩, hrel⟩
  · have hN : 0 < N := by omega
    rw [pop_not_empty h]
    refine ⟨⟨hh, Nat.mod_lt _ hN, show q.num_elements_stored - 1 ≤ N by omega⟩, ?_⟩
    show q.queue_head = ((q.queue_tail + 1) % N + (q.num_elements_stored - 1)) % N
    have h1 : 1 + (q.num_elements_stored - 1) = q.num_elements_stored := by
      omega
    rw [hrel, Nat.mod_add_mod, Nat.add_assoc, h1]

theorem inv_reachable {N : Nat} {q : SQueue α} (hN : 0 < N)
    (hr : Reachable N q) : Inv N q := by
  induction hr with
  | init b => exact inv_mkInit hN b
  | push q a _ ih => exact inv_push hN ih a
  | pop q _ ih => exact inv_pop ih
  | clear q _ _ => exact inv_clear hN q

/-! ## Sequences of pushes and pops -/

theorem pushAll_cons {N : Nat} {q : SQueue α} {a : α} {l : List α} :
    pushAll N (a :: l) q = pushAll N l (push N a q).2 := rfl

theorem pushAll_inv_toList {N : Nat} (hN : 0 < N) :
    ∀ (l : List α) (q : SQueue α), Inv N q →
      q.num_elements_stored + l.length ≤ N →
      Inv N (pushAll N l q) ∧
        toList N (pushAll N l q) = toList N q ++ l := by
  intro l
  induction l with
  | nil => intro q hq _; exact ⟨hq, by simp [pushAll]⟩
  | cons a l ih =>
      intro q hq hlen
      have hlt : q.num_elements_stored < N := by
        simp only [List.length_cons] at hlen; omega
      have h1 : Inv N (push N a q).2 := inv_push hN hq a
      have hcount : (push N a q).2.num_elements_stored =
          q.num_elements_stored + 1 := by
        rw [push_snd_not_full hlt]
      have h2 := ih (push N a q).2 h1
        (by rw [hcount]; simp only [List.length_cons] at hlen; omega)
      refine ⟨by rw [pushAll_cons]; exact h2.1, ?_⟩
      rw [pushAll_cons, h2.2, toList_push_not_full hq hlt,
        List.append_assoc, List.singleton_append]

theorem fronts_popN {N : Nat} :
    ∀ (k : Nat) (q : SQueue α), Inv N q → q.num_elements_stored = k →
      fronts N k q = (toList N q).map some ∧
      (popN N k q).num_elements_stored = 0 := by
  intro k
  induction k with
  | zero =>
      intro q _ h0
      exact ⟨by simp [fronts, toList_eq_nil h0], by simpa [popN] using h0⟩
  | succ c ih =>
      intro q hq hk
      have hne : q.num_elements_stored ≠ 0 := by omega
      have hpop : Inv N (pop N q) := inv_pop hq
      have hcount : (pop N q).num_elements_stored = c := by
        rw [pop_not_empty hne]
        show q.num_elements_stored - 1 = c
        omega
      have h2 := ih (pop N q) hpop hcount
      obtain ⟨e, rest, hrest⟩ : ∃ e rest, toList N q = e :: rest := by
        cases htl : toList N q with
        | nil =>
            exfalso
            have hl : (toList N q).length = q.num_elements_stored :=
              toList_length
            rw [htl] at hl
            simp at hl
            omega
        | cons e rest => exact ⟨e, rest, rfl⟩
      constructor
      · show front q :: fronts N c (pop N q) = (toList N q).map some
        rw [h2.1, toList_pop hne, front_toList hq.1.2.1, hrest]
        simp
      · show (popN N c (pop N q)).num_elements_stored = 0
        exact h2.2

/-! ## Claim theorems -/

/-- C1: for every sequence of `k ≤ N` pushes into an initially empty
queue, `size()` equals `k`; a subsequent sequence of `k` pops observes
via `front()` before each pop exactly the pushed elements in push
order, and the queue is empty afterward. -/
theorem C1_fifo_roundtrip (N : Nat) (hN : 0 < N) (l : List α)
    (b : Nat → α) (hlen : l.length ≤ N) :
    size (pushAll N l (mkInit b)) = l.length ∧
    fronts N l.length (pushAll N l (mkInit b)) = l.map some ∧
    empty (popN N l.length (pushAll N l (mkInit b))) = true := by
  have h0 : Inv N (mkInit b) := inv_mkInit hN b
  have h1 := pushAll_inv_toList hN l (mkInit b) h0
    (by simpa [mkInit] using hlen)
  have htl : toList N (pushAll N l (mkInit b)) = l := by
    rw [h1.2, toList_eq_nil (show (mkInit b).num_elements_stored = 0 from rfl),
      List.nil_append]
  have hsz : (pushAll N l (mkInit b)).num_elements_stored = l.length := by
    have h2 := toList_length (N := N) (q := pushAll N l (mkInit b))
    rw [htl] at h2
    exact h2.symm
  have h2 := fronts_popN l.length (pushAll N l (mkInit b)) h1.1 hsz
  refine ⟨hsz, ?_, ?_⟩
  · rw [h2.1, htl]
  · simp [empty, h2.2]

/-- C2: `push` returns `OVERFLOW` exactly when the queue was full at the
call and `OK` otherwise; the pushed element is always stored (it is the
new last logical element); on a full queue the size stays `N` and the
new `front()` is the second-oldest previously stored element; on a
non-full queue the size increments. -/
theorem C2_push_eviction (N : Nat) (q : SQueue α) (a : α) (hN : 0 < N)
    (hInv : Inv N q) :
    ((push N a q).1 = Rc.OVERFLOW ↔ full N q = true) ∧
    ((push N a q).1 = Rc.OK ↔ full N q = false) ∧
    (toList N (push N a q).2).getLast? = some a ∧
    (full N q = true →
      size (push N a q).2 = N ∧
      ∀ x, (toList N q)[1]? = some x → front (push N a q).2 = some x) ∧
    (full N q = false → size (push N a q).2 = size q + 1) := by
  by_cases h : N ≤ q.num_elements_stored
  · have hfull : full N q = true := by simp [full, h]
    have hcN : q.num_elements_stored = N := Nat.le_antisymm hInv.1.2.2 h
    refine ⟨by simp [push_fst_full h, hfull],
      by simp [push_fst_full h, hfull],
      by rw [toList_push_full hInv hN h, List.getLast?_concat],
      fun _ => ⟨?_, ?_⟩, by simp [hfull]⟩
    · rw [push_snd_full h]
      exact hcN
    · intro x hx
      have hInv2 : Inv N (push N a q).2 := inv_push hN hInv a
      have hlen2 : 1 < (toList N q).length := by
        by_contra hc2
        rw [List.getElem?_eq_none (by omega)] at hx
        exact Option.noConfusion hx
      rw [front_toList hInv2.1.2.1, toList_push_full hInv hN h,
        List.head?_eq_getElem?, List.getElem?_append,
        if_pos (by rw [List.length_drop]; omega), List.getElem?_drop]
      simpa using hx
  · have h' : q.num_elements_stored < N := Nat.lt_of_not_le h
    have hfull : full N q = false := by
      simp [full]
      omega
    refine ⟨by simp [push_fst_not_full h', hfull],
      by simp [push_fst_not_full h', hfull],
      by rw [toList_push_not_full hInv h', List.getLast?_concat],
      fun hcontra => absurd hcontra (by simp [hfull]), fun _ => ?_⟩
    rw [push_snd_not_full h']
    rfl

/-- C3: `front()` and `back()` return the null sentinel exactly on the
empty queue; on a non-empty queue `front()` reads `storage[tail]` and
`back()` reads `storage[(head - 1) mod N]` (written `(head + N - 1) % N`
over `Nat`). -/
theorem C3_front_back (N : Nat) (q : SQueue α) (hN : 0 < N)
    (hh : q.queue_head < N) :
    (front q = none ↔ empty q = true) ∧
    (back N q = none ↔ empty q = true) ∧
    (empty q = false →
      front q = some (q.buffer q.queue_tail) ∧
      back N q = some (q.buffer ((q.queue_head + N - 1) % N))) := by
  have hemp : empty q = q.empty := rfl
  by_cases h0 : q.num_elements_stored = 0
  · have hq : q.empty = true := by simp [SQueue.empty, h0]
    have hfr : front q = none := by simp [front, hq]
    have hbk : back N q = none := by simp [back, hq]
    refine ⟨?_, ?_, ?_⟩
    · rw [hfr, hemp, hq]
      simp
    · rw [hbk, hemp, hq]
      simp
    · intro hcontra
      rw [hemp, hq] at hcontra
      exact Bool.noConfusion hcontra
  · have hq : q.empty = false := by simp [SQueue.empty, h0]
    have hfr : front q = some (q.buffer q.queue_tail) := by
      simp [front, hq]
    have hbk : back N q = some (q.buffer
        (if q.queue_head == 0 then N - 1 else q.queue_head - 1)) := by
      simp [back, hq]
    refine ⟨?_, ?_, fun _ => ⟨hfr, ?_⟩⟩
    · rw [hfr, hemp, hq]
      simp
    · rw [hbk, hemp, hq]
      simp
    · rw [hbk]
      congr 1
      by_cases hz : q.queue_head = 0
      · have e1 : (0 + N - 1) % N = N - 1 := by
          rw [Nat.zero_add, Nat.mod_eq_of_lt (by omega)]
        rw [hz, e1]
        simp
      · have e1 : (q.queue_head + N - 1) % N = q.queue_head - 1 := by
          have h1 : q.queue_head + N - 1 = q.queue_head - 1 + N := by omega
          rw [h1, Nat.add_mod_right, Nat.mod_eq_of_lt (by omega)]
        rw [e1, if_neg (show ¬ ((q.queue_head == 0) = true) by simp [hz])]

/-- C4: `pop()` on an empty queue leaves the entire state unchanged
(head, tail, count, flag and storage) and `size()` stays 0. -/
theorem C4_pop_empty_noop (N : Nat) (q : SQueue α)
    (h : empty q = true) :
    pop N q = q ∧ size (pop N q) = 0 := by
  have h0 : q.num_elements_stored = 0 := empty_eq_true_iff.mp h
  refine ⟨pop_empty_eq h0, ?_⟩
  rw [pop_empty_eq h0]
  exact h0

/-- C5: the overflow flag is set by a push exactly when the queue was
full (in particular a push into a non-full queue clears it), every pop
on a non-empty queue clears it, `clear()` clears it, the constructor
starts it cleared, and in every reachable state the flag can only be
set while the queue is full. -/
theorem C5_overflow_flag (N : Nat) (q : SQueue α) (a : α)
    (b : Nat → α) :
    ((push N a q).2.queue_overflow = true ↔ full N q = true) ∧
    (empty q = false → (pop N q).queue_overflow = false) ∧
    (clear q).queue_overflow = false ∧
    (mkInit b).queue_overflow = false ∧
    (Reachable N q → q.queue_overflow = true → full N q = true) := by
  refine ⟨?_, ?_, rfl, rfl, ?_⟩
  · by_cases h : N ≤ q.num_elements_stored
    · rw [push_snd_full h]
      simp [full, h]
    · rw [push_snd_not_full (Nat.lt_of_not_le h)]
      simp [full]
      omega
  · intro h
    rw [pop_not_empty (empty_eq_false_iff.mp h)]
  · intro hr
    induction hr with
    | init b2 => intro hcontra; exact Bool.noConfusion hcontra
    | push q2 a2 _ ih =>
        by_cases h : N ≤ q2.num_elements_stored
        · intro _
          rw [push_snd_full h]
          simpa [full] using h
        · intro hcontra
          rw [push_snd_not_full (Nat.lt_of_not_le h)] at hcontra
          exact Bool.noConfusion hcontra
    | pop q2 _ ih =>
        by_cases h0 : q2.num_elements_stored = 0
        · rw [pop_empty_eq h0]
          exact ih
        · intro hcontra
          rw [pop_not_empty h0] at hcontra
          exact Bool.noConfusion hcontra
    | clear q2 _ _ =>
        intro hcontra
        exact Bool.noConfusion hcontra

/-- C6: `contains(x)` returns true iff `x` compares `==`-equal to one of
the `count` logically valid elements at offsets `0..count-1` from the
tail (modulo `N`); on an empty queue it returns false. -/
theorem C6_contains (N : Nat) (q : SQueue α) (x : α) [BEq α] :
    (contains N x q = true ↔
      ∃ i, i < q.num_elements_stored ∧ (x == elemAt N q i) = true) ∧
    (empty q = true → contains N x q = false) := by
  constructor
  · simp [contains, List.any_eq_true, List.mem_range, elemAt]
  · intro h
    have h0 : q.num_elements_stored = 0 := empty_eq_true_iff.mp h
    simp [contains, h0]

/-- C8: construction, push, pop and clear preserve the bounds invariant
`head < N ∧ tail < N ∧ count ≤ N` (the pure queries do not modify the
state at all), and every storage index the operations access — `tail`
for `front`, the conditional index for `back`, `head` for the write in
`push`, and `(tail + i) % N` for `contains` — is below `N`. -/
theorem C8_bounds (N : Nat) (q : SQueue α) (a : α) (b : Nat → α)
    (hN : 0 < N) (hB : BInv N q) :
    BInv N (mkInit b) ∧
    BInv N (push N a q).2 ∧
    BInv N (pop N q) ∧
    BInv N (clear q) ∧
    q.queue_tail < N ∧
    (if q.queue_head == 0 then N - 1 else q.queue_head - 1) < N ∧
    q.queue_head < N ∧
    (∀ i, (q.queue_tail + i) % N < N) := by
  obtain ⟨hh, ht, hc⟩ := hB
  refine ⟨⟨hN, hN, Nat.zero_le _⟩, ?_, ?_, ⟨hN, hN, Nat.zero_le _⟩,
    ht, ?_, hh, fun i => Nat.mod_lt _ hN⟩
  · by_cases h : N ≤ q.num_elements_stored
    · rw [push_snd_full h]
      exact ⟨Nat.mod_lt _ hN, Nat.mod_lt _ hN, hc⟩
    · rw [push_snd_not_full (Nat.lt_of_not_le h)]
      exact ⟨Nat.mod_lt _ hN, ht, Nat.lt_of_not_le h⟩
  · by_cases h0 : q.num_elements_stored = 0
    · rw [pop_empty_eq h0]
      exact ⟨hh, ht, hc⟩
    · rw [pop_not_empty h0]
      exact ⟨hh, Nat.mod_lt _ hN,
        show q.num_elements_stored - 1 ≤ N by omega⟩
  · by_cases h0 : q.queue_head = 0
    · rw [if_pos (show (q.queue_head == 0) = true by simp [h0])]
      omega
    · rw [if_neg (show ¬ ((q.queue_head == 0) = true) by simp [h0])]
      omega

/-- C9: every state reachable from the constructor satisfies
`head = (tail + count) % N`; the relation holds after construction and
`clear` and is preserved by every push and pop. -/
theorem C9_head_relation (N : Nat) (q : SQueue α)
    (hr : Reachable N q) :
    q.queue_head = (q.queue_tail + q.num_elements_stored) % N := by
  induction hr with
  | init b => simp [mkInit]
  | push q2 a2 _ ih =>
      by_cases h : N ≤ q2.num_elements_stored
      · rw [push_snd_full h]
        show (q2.queue_head + 1) % N =
          ((q2.queue_tail + 1) % N + q2.num_elements_stored) % N
        rw [ih, Nat.mod_add_mod, Nat.mod_add_mod]
        congr 1
        omega
      · rw [push_snd_not_full (Nat.lt_of_not_le h)]
        show (q2.queue_head + 1) % N =
          (q2.queue_tail + (q2.num_elements_stored + 1)) % N
        rw [ih, Nat.mod_add_mod, Nat.add_assoc]
  | pop q2 _ ih =>
      by_cases h0 : q2.num_elements_stored = 0
      · rw [pop_empty_eq h0]
        exact ih
      · rw [pop_not_empty h0]
        show q2.queue_head =
          ((q2.queue_tail + 1) % N + (q2.num_elements_stored - 1)) % N
        have h1 : 1 + (q2.num_elements_stored - 1) =
            q2.num_elements_stored := by omega
        rw [ih, Nat.mod_add_mod, Nat.add_assoc, h1]
  | clear q2 _ _ => simp [clear]

/-! ## Witnesses -/

theorem C1_fifo_roundtrip_witness :
    0 < 5 ∧ ([10, 20, 30] : List Nat).length ≤ 5 ∧
    (size (pushAll 5 [10, 20, 30] (mkInit fun _ => 0)) =
        [10, 20, 30].length ∧
      fronts 5 [10, 20, 30].length
        (pushAll 5 [10, 20, 30] (mkInit fun _ => 0)) =
        [10, 20, 30].map some ∧
      empty (popN 5 [10, 20, 30].length
        (pushAll 5 [10, 20, 30] (mkInit fun _ => 0))) = true) :=
  ⟨by decide, by decide,
    C1_fifo_roundtrip 5 (by decide) [10, 20, 30] (fun _ => 0) (by decide)⟩

theorem C2_push_eviction_witness :
    0 < 3 ∧ Inv 3 (⟨fun i => i + 1, 0, 0, 3, false⟩ : SQueue Nat) ∧
    (((push 3 9 ⟨fun i => i + 1, 0, 0, 3, false⟩).1 = Rc.OVERFLOW ↔
        full 3 (⟨fun i => i + 1, 0, 0, 3, false⟩ : SQueue Nat) = true) ∧
      ((push 3 9 ⟨fun i => i + 1, 0, 0, 3, false⟩).1 = Rc.OK ↔
        full 3 (⟨fun i => i + 1, 0, 0, 3, false⟩ : SQueue Nat) = false) ∧
      (toList 3 (push 3 9 ⟨fun i => i + 1, 0, 0, 3, false⟩).2).getLast? =
        some 9 ∧
      (full 3 (⟨fun i => i + 1, 0, 0, 3, false⟩ : SQueue Nat) = true →
        size (push 3 9 ⟨fun i => i + 1, 0, 0, 3, false⟩).2 = 3 ∧
        ∀ x, (toList 3 (⟨fun i => i + 1, 0, 0, 3, false⟩ : SQueue Nat))[1]? =
            some x →
          front (push 3 9 ⟨fun i => i + 1, 0, 0, 3, false⟩).2 = some x) ∧
      (full 3 (⟨fun i => i + 1, 0, 0, 3, false⟩ : SQueue Nat) = false →
        size (push 3 9 ⟨fun i => i + 1, 0, 0, 3, false⟩).2 =
          size (⟨fun i => i + 1, 0, 0, 3, false⟩ : SQueue Nat) + 1)) :=
  ⟨by decide, ⟨⟨by decide, by decide, by decide⟩, by decide⟩,
    C2_push_eviction 3 ⟨fun i => i + 1, 0, 0, 3, false⟩ 9 (by decide)
      ⟨⟨by decide, by decide, by decide⟩, by decide⟩⟩

theorem C3_front_back_witness :
    0 < 3 ∧ (⟨fun i => i, 1, 2, 2, false⟩ : SQueue Nat).queue_head < 3 ∧
    ((front (⟨fun i => i, 1, 2, 2, false⟩ : SQueue Nat) = none ↔
        empty (⟨fun i => i, 1, 2, 2, false⟩ : SQueue Nat) = true) ∧
      (back 3 (⟨fun i => i, 1, 2, 2, false⟩ : SQueue Nat) = none ↔
        empty (⟨fun i => i, 1, 2, 2, false⟩ : SQueue Nat) = true) ∧
      (empty (⟨fun i => i, 1, 2, 2, false⟩ : SQueue Nat) = false →
        front (⟨fun i => i, 1, 2, 2, false⟩ : SQueue Nat) =
          some ((⟨fun i => i, 1, 2, 2, false⟩ : SQueue Nat).buffer 2) ∧
        back 3 (⟨fun i => i, 1, 2, 2, false⟩ : SQueue Nat) =
          some ((⟨fun i => i, 1, 2, 2, false⟩ : SQueue Nat).buffer
            ((1 + 3 - 1) % 3)))) :=
  ⟨by decide, by decide,
    C3_front_back 3 ⟨fun i => i, 1, 2, 2, false⟩ (by decide) (by decide)⟩

theorem C4_pop_empty_noop_witness :
    empty (mkInit (fun _ => (7 : Nat))) = true ∧
    (pop 4 (mkInit (fun _ => (7 : Nat))) = mkInit (fun _ => (7 : Nat)) ∧
      size (pop 4 (mkInit (fun _ => (7 : Nat)))) = 0) :=
  ⟨by decide, C4_pop_empty_noop 4 (mkInit fun _ => 7) (by decide)⟩

theorem C5_overflow_flag_witness :
    (((push 2 5 ⟨fun _ => 0, 0, 0, 2, true⟩).2.queue_overflow = true ↔
        full 2 (⟨fun _ => 0, 0, 0, 2, true⟩ : SQueue Nat) = true) ∧
      (empty (⟨fun _ => 0, 0, 0, 2, true⟩ : SQueue Nat) = false →
        (pop 2 ⟨fun _ => 0, 0, 0, 2, true⟩).queue_overflow = false) ∧
      (clear (⟨fun _ => 0, 0, 0, 2, true⟩ : SQueue Nat)).queue_overflow =
        false ∧
      (mkInit (fun _ => (0 : Nat))).queue_overflow = false ∧
      (Reachable 2 (⟨fun _ => 0, 0, 0, 2, true⟩ : SQueue Nat) →
        (⟨fun _ => 0, 0, 0, 2, true⟩ : SQueue Nat).queue_overflow = true →
        full 2 (⟨fun _ => 0, 0, 0, 2, true⟩ : SQueue Nat) = true)) :=
  C5_overflow_flag 2 ⟨fun _ => 0, 0, 0, 2, true⟩ 5 (fun _ => 0)

theorem C6_contains_witness :
    ((contains 3 4 (⟨fun i => i * 2, 1, 1, 2, false⟩ : SQueue Nat) = true ↔
        ∃ i, i < (⟨fun i => i * 2, 1, 1, 2, false⟩ :
            SQueue Nat).num_elements_stored ∧
          ((4 : Nat) == elemAt 3 ⟨fun i => i * 2, 1, 1, 2, false⟩ i) =
            true) ∧
      (empty (⟨fun i => i * 2, 1, 1, 2, false⟩ : SQueue Nat) = true →
        contains 3 4 (⟨fun i => i * 2, 1, 1, 2, false⟩ : SQueue Nat) =
          false)) :=
  C6_contains 3 ⟨fun i => i * 2, 1, 1, 2, false⟩ 4

theorem C8_bounds_witness :
    0 < 3 ∧ BInv 3 (⟨fun _ => 0, 1, 2, 2, false⟩ : SQueue Nat) ∧
    (BInv 3 (mkInit (fun _ => (1 : Nat))) ∧
      BInv 3 (push 3 7 (⟨fun _ => 0, 1, 2, 2, false⟩ : SQueue Nat)).2 ∧
      BInv 3 (pop 3 (⟨fun _ => 0, 1, 2, 2, false⟩ : SQueue Nat)) ∧
      BInv 3 (clear (⟨fun _ => 0, 1, 2, 2, false⟩ : SQueue Nat)) ∧
      (⟨fun _ => 0, 1, 2, 2, false⟩ : SQueue Nat).queue_tail < 3 ∧
      (if (⟨fun _ => 0, 1, 2, 2, false⟩ : SQueue Nat).queue_head == 0
        then 3 - 1
        else (⟨fun _ => 0, 1, 2, 2, false⟩ :
          SQueue Nat).queue_head - 1) < 3 ∧
      (⟨fun _ => 0, 1, 2, 2, false⟩ : SQueue Nat).queue_head < 3 ∧
      (∀ i, ((⟨fun _ => 0, 1, 2, 2, false⟩ :
        SQueue Nat).queue_tail + i) % 3 < 3)) :=
  ⟨by decide, ⟨by decide, by decide, by decide⟩,
    C8_bounds 3 ⟨fun _ => 0, 1, 2, 2, false⟩ 7 (fun _ => 1) (by decide)
      ⟨by decide, by decide, by decide⟩⟩

theorem C9_head_relation_witness :
    Reachable 4 (mkInit (fun _ => (0 : Nat))) ∧
    (mkInit (fun _ => (0 : Nat))).queue_head =
      ((mkInit (fun _ => (0 : Nat))).queue_tail +
        (mkInit (fun _ => (0 : Nat))).num_elements_stored) % 4 :=
  ⟨Reachable.init _,
    C9_head_relation 4 (mkInit fun _ => 0) (Reachable.init _)⟩

end SQueue

/-! ## Characterizations of the v1.0.0 operations -/

namespace SQueueV0

variable {α : Type}

theorem push0_snd_full {N : Nat} {q : SQueue α} {a : α}
    (h : N ≤ q.num_elements_stored) :
    (push N a q).2 = ⟨Function.update q.buffer ((q.queue_head + 1) % N) a,
      (q.queue_head + 1) % N, (q.queue_tail + 1) % N,
      q.num_elements_stored, true⟩ := by
  simp [push, full, size, h]

theorem push0_fst_full {N : Nat} {q : SQueue α} {a : α}
    (h : N ≤ q.num_elements_stored) :
    (push N a q).1 = Toverflow.BUFFER_OVERFLOW := by
  simp [push, full, size, h]

theorem push0_snd_not_full {N : Nat} {q : SQueue α} {a : α}
    (h : q.num_elements_stored < N) (hf : q.queue_overflow = false) :
    (push N a q).2 = ⟨Function.update q.buffer ((q.queue_head + 1) % N) a,
      (q.queue_head + 1) % N, q.queue_tail,
      q.num_elements_stored + 1, false⟩ := by
  have h' : ¬ N ≤ q.num_elements_stored := Nat.not_le.mpr h
  simp [push, full, size, h', hf]

theorem push0_fst_not_full {N : Nat} {q : SQueue α} {a : α}
    (h : q.num_elements_stored < N) (hf : q.queue_overflow = false) :
    (push N a q).1 = Toverflow.BUFFER_OK := by
  have h' : ¬ N ≤ q.num_elements_stored := Nat.not_le.mpr h
  simp [push, full, size, h', hf]

theorem pop0_empty_eq {N : Nat} {q : SQueue α}
    (h : q.num_elements_stored = 0) : pop N q = q := by
  simp [pop, empty, h]

theorem pop0_not_empty {N : Nat} {q : SQueue α}
    (h : q.num_elements_stored ≠ 0) :
    pop N q = ⟨q.buffer, q.queue_head, (q.queue_tail + 1) % N,
      q.num_elements_stored - 1, false⟩ := by
  simp [pop, empty, h]

end SQueueV0

/-! ## The v1.1.0 / v1.0.0 simulation -/

section Simulation

variable {α : Type}

theorem simR_init {N : Nat} (hN : 0 < N) (b b0 : Nat → α) :
    SimR N (SQueue.mkInit b) (SQueueV0.mk0 b0) :=
  ⟨rfl, rfl, rfl, rfl, fun h => Bool.noConfusion h, hN, hN, Nat.zero_le _,
    by simp [SQueue.mkInit], fun i hi => absurd hi (Nat.not_lt_zero i)⟩

theorem simR_clear {N : Nat} (hN : 0 < N) (q1 q0 : SQueue α) :
    SimR N (SQueue.clear q1) (SQueueV0.clear q0) :=
  ⟨rfl, rfl, rfl, rfl, fun h => Bool.noConfusion h, hN, hN, Nat.zero_le _,
    by simp [SQueue.clear], fun i hi => absurd hi (Nat.not_lt_zero i)⟩

theorem simR_pop {N : Nat} {q1 q0 : SQueue α} (hR : SimR N q1 q0) :
    SimR N (SQueue.pop N q1) (SQueueV0.pop N q0) := by
  obtain ⟨hH, hT, hC, hF, hFf, hh1, ht1, hc1, hrel, hwin⟩ := hR
  by_cases h0 : q1.num_elements_stored = 0
  · rw [SQueue.pop_empty_eq h0, SQueueV0.pop0_empty_eq (hC.symm.trans h0)]
    exact ⟨hH, hT, hC, hF, hFf, hh1, ht1, hc1, hrel, hwin⟩
  · have hN : 0 < N := Nat.lt_of_le_of_lt (Nat.zero_le _) ht1
    rw [SQueue.pop_not_empty h0,
      SQueueV0.pop0_not_empty (fun hc => h0 (hC.trans hc))]
    refine ⟨by rw [hH], by rw [hT], by rw [hC], rfl,
      fun h => Bool.noConfusion h, hh1, Nat.mod_lt _ hN,
      show q1.num_elements_stored - 1 ≤ N by omega, ?_, ?_⟩
    · show q1.queue_head =
        ((q1.queue_tail + 1) % N + (q1.num_elements_stored - 1)) % N
      have h1 : 1 + (q1.num_elements_stored - 1) =
          q1.num_elements_stored := by omega
      rw [hrel, Nat.mod_add_mod, Nat.add_assoc, h1]
    · intro i hi
      have hi2 : i < q1.num_elements_stored - 1 := hi
      show q1.buffer (((q1.queue_tail + 1) % N + i) % N) =
        q0.buffer (((q1.queue_tail + 1) % N + 1 + i) % N)
      have e1 : ((q1.queue_tail + 1) % N + i) % N =
          (q1.queue_tail + (1 + i)) % N := by
        rw [Nat.mod_add_mod, Nat.add_assoc]
      have e2 : ((q1.queue_tail + 1) % N + 1 + i) % N =
          (q1.queue_tail + 1 + (1 + i)) % N := by
        rw [Nat.add_assoc ((q1.queue_tail + 1) % N) 1 i, Nat.mod_add_mod,
          Nat.add_assoc]
      rw [e1, e2]
      exact hwin (1 + i) (by omega)

theorem simR_push {N : Nat} {q1 q0 : SQueue α} (hN : 0 < N)
    (hR : SimR N q1 q0) (a : α) :
    SimR N (SQueue.push N a q1).2 (SQueueV0.push N a q0).2 ∧
    ((SQueue.push N a q1).1 == Rc.OVERFLOW) =
      ((SQueueV0.push N a q0).1 == Toverflow.BUFFER_OVERFLOW) := by
  obtain ⟨hH, hT, hC, hF, hFf, hh1, ht1, hc1, hrel, hwin⟩ := hR
  by_cases h : N ≤ q1.num_elements_stored
  · -- both queues are full: the push evicts in both versions
    have h0 : N ≤ q0.num_elements_stored := hC ▸ h
    have hcN : q1.num_elements_stored = N := Nat.le_antisymm hc1 h
    have hht : q1.queue_head = q1.queue_tail := by
      rw [hrel, hcN, Nat.add_mod_right, Nat.mod_eq_of_lt ht1]
    have hq0h : q0.queue_head = q1.queue_tail := hH.symm.trans hht
    constructor
    · rw [SQueue.push_snd_full h, SQueueV0.push0_snd_full h0]
      refine ⟨by rw [hH], by rw [hT], hC, rfl, fun _ => h0,
        Nat.mod_lt _ hN, Nat.mod_lt _ hN, hc1, ?_, ?_⟩
      · show (q1.queue_head + 1) % N =
          ((q1.queue_tail + 1) % N + q1.num_elements_stored) % N
        rw [hrel, Nat.mod_add_mod, Nat.mod_add_mod]
        congr 1
        omega
      · intro i hi
        have hi2 : i < q1.num_elements_stored := hi
        show Function.update q1.buffer q1.queue_head a
            (((q1.queue_tail + 1) % N + i) % N) =
          Function.update q0.buffer ((q0.queue_head + 1) % N) a
            (((q1.queue_tail + 1) % N + 1 + i) % N)
        have hiN : i < N := by omega
        have e1 : ((q1.queue_tail + 1) % N + i) % N =
            (q1.queue_tail + (1 + i)) % N := by
          rw [Nat.mod_add_mod, Nat.add_assoc]
        have e2 : ((q1.queue_tail + 1) % N + 1 + i) % N =
            (q1.queue_tail + 1 + (1 + i)) % N := by
          rw [Nat.add_assoc ((q1.queue_tail + 1) % N) 1 i, Nat.mod_add_mod,
            Nat.add_assoc]
        rw [e1, e2]
        by_cases hlast : 1 + i = N
        · have eL : (q1.queue_tail + (1 + i)) % N = q1.queue_head := by
            rw [hlast, Nat.add_mod_right, Nat.mod_eq_of_lt ht1, hht]
          have eR : (q1.queue_tail + 1 + (1 + i)) % N =
              (q0.queue_head + 1) % N := by
            rw [hlast, Nat.add_mod_right, hq0h]
          rw [eL, eR, Function.update_same, Function.update_same]
        · have hlt : 1 + i < N := by omega
          have neL : (q1.queue_tail + (1 + i)) % N ≠ q1.queue_head := by
            rw [hht]
            intro heq
            have h2 : (q1.queue_tail + (1 + i)) % N =
                (q1.queue_tail + 0) % N := by
              rw [heq, Nat.add_zero, Nat.mod_eq_of_lt ht1]
            have := SQueue.mod_add_cancel hlt hN h2
            omega
          have neR : (q1.queue_tail + 1 + (1 + i)) % N ≠
              (q0.queue_head + 1) % N := by
            rw [hq0h]
            intro heq
            have h2 : (q1.queue_tail + 1 + (1 + i)) % N =
                (q1.queue_tail + 1 + 0) % N := by
              rw [heq, Nat.add_zero]
            have := SQueue.mod_add_cancel hlt hN h2
            omega
          rw [Function.update_noteq neL, Function.update_noteq neR]
          exact hwin (1 + i) (by omega)
    · rw [SQueue.push_fst_full h, SQueueV0.push0_fst_full h0]
      rfl
  · -- both queues are non-full: a plain append in both versions
    have h' : q1.num_elements_stored < N := Nat.lt_of_not_le h
    have h0' : q0.num_elements_stored < N := hC ▸ h'
    have hf0 : q0.queue_overflow = false := by
      cases hfq : q0.queue_overflow with
      | false => rfl
      | true => exact absurd (hFf hfq) (Nat.not_le.mpr h0')
    constructor
    · rw [SQueue.push_snd_not_full h', SQueueV0.push0_snd_not_full h0' hf0]
      refine ⟨by rw [hH], by rw [hT], by rw [hC], rfl,
        fun hcf => Bool.noConfusion hcf, Nat.mod_lt _ hN, ht1,
        h', ?_, ?_⟩
      · show (q1.queue_head + 1) % N =
          (q1.queue_tail + (q1.num_elements_stored + 1)) % N
        rw [hrel, Nat.mod_add_mod, Nat.add_assoc]
      · intro i hi
        have hi2 : i < q1.num_elements_stored + 1 := hi
        show Function.update q1.buffer q1.queue_head a
            ((q1.queue_tail + i) % N) =
          Function.update q0.buffer ((q0.queue_head + 1) % N) a
            ((q1.queue_tail + 1 + i) % N)
        have hq0h : (q0.queue_head + 1) % N =
            (q1.queue_tail + 1 + q1.num_elements_stored) % N := by
          rw [← hH, hrel, Nat.mod_add_mod]
          congr 1
          omega
        by_cases hlast : i = q1.num_elements_stored
        · have eL : (q1.queue_tail + i) % N = q1.queue_head := by
            rw [hlast, hrel]
          have eR : (q1.queue_tail + 1 + i) % N = (q0.queue_head + 1) % N := by
            rw [hlast, hq0h]
          rw [eL, eR, Function.update_same, Function.update_same]
        · have hi' : i < q1.num_elements_stored := by omega
          have neL : (q1.queue_tail + i) % N ≠ q1.queue_head := by
            rw [hrel]
            intro heq
            have := SQueue.mod_add_cancel (by omega) h' heq
            omega
          have neR : (q1.queue_tail + 1 + i) % N ≠
              (q0.queue_head + 1) % N := by
            rw [hq0h]
            intro heq
            have := SQueue.mod_add_cancel (t := q1.queue_tail + 1)
              (by omega) h' heq
            omega
          rw [Function.update_noteq neL, Function.update_noteq neR]
          exact hwin i hi'
    · rw [SQueue.push_fst_not_full h', SQueueV0.push0_fst_not_full h0' hf0]
      rfl

end Simulation

section TraceEquivalence

variable {α : Type}

/-- Coupled states are indistinguishable through `front`, `back`, `size`
and `empty`. -/
theorem obs_eq {N : Nat} {q1 q0 : SQueue α} (hR : SimR N q1 q0) :
    SQueue.front q1 = SQueueV0.front N q0 ∧
    SQueue.back N q1 = SQueueV0.back q0 ∧
    SQueue.size q1 = SQueueV0.size q0 ∧
    SQueue.empty q1 = SQueueV0.empty q0 := by
  obtain ⟨hH, hT, hC, hF, hFf, hh1, ht1, hc1, hrel, hwin⟩ := hR
  have hN : 0 < N := Nat.lt_of_le_of_lt (Nat.zero_le _) ht1
  refine ⟨?_, ?_, hC, by simp [SQueue.empty, SQueueV0.empty, hC]⟩
  · by_cases h0 : q1.num_elements_stored = 0
    · have h00 : q0.num_elements_stored = 0 := hC.symm.trans h0
      simp [SQueue.front, SQueueV0.front, SQueue.empty, SQueueV0.empty,
        h0, h00]
    · have h00 : q0.num_elements_stored ≠ 0 := fun hc => h0 (hC.trans hc)
      have hq1e : q1.empty = false := by simp [SQueue.empty, h0]
      have hq0e : SQueueV0.empty q0 = false := by simp [SQueueV0.empty, h00]
      have hf1 : SQueue.front q1 = some (q1.buffer q1.queue_tail) := by
        simp [SQueue.front, hq1e]
      have hf0 : SQueueV0.front N q0 =
          some (q0.buffer ((q0.queue_tail + 1) % N)) := by
        simp [SQueueV0.front, hq0e]
      have hw := hwin 0 (by omega)
      rw [Nat.add_zero, Nat.add_zero, Nat.mod_eq_of_lt ht1] at hw
      rw [hf1, hf0, hw, hT]
  · by_cases h0 : q1.num_elements_stored = 0
    · have h00 : q0.num_elements_stored = 0 := hC.symm.trans h0
      simp [SQueue.back, SQueueV0.back, SQueue.empty, SQueueV0.empty,
        h0, h00]
    · have h00 : q0.num_elements_stored ≠ 0 := fun hc => h0 (hC.trans hc)
      have hq1e : q1.empty = false := by simp [SQueue.empty, h0]
      have hq0e : SQueueV0.empty q0 = false := by simp [SQueueV0.empty, h00]
      have hb1 : SQueue.back N q1 = some (q1.buffer
          (if q1.queue_head == 0 then N - 1 else q1.queue_head - 1)) := by
        simp [SQueue.back, hq1e]
      have hb0 : SQueueV0.back q0 = some (q0.buffer q0.queue_head) := by
        simp [SQueueV0.back, hq0e]
      have hw := hwin (q1.num_elements_stored - 1) (by omega)
      have e2 : (q1.queue_tail + 1 + (q1.num_elements_stored - 1)) % N =
          q0.queue_head := by
        have h1 : q1.queue_tail + 1 + (q1.num_elements_stored - 1) =
            q1.queue_tail + q1.num_elements_stored := by omega
        rw [h1, ← hrel, hH]
      have hm : (q1.queue_tail + (q1.num_elements_stored - 1)) % N < N :=
        Nat.mod_lt _ hN
      have hhead2 : q1.queue_head =
          ((q1.queue_tail + (q1.num_elements_stored - 1)) % N + 1) % N := by
        rw [Nat.mod_add_mod, Nat.add_assoc]
        have h1 : q1.num_elements_stored - 1 + 1 =
            q1.num_elements_stored := by omega
        rw [h1, hrel]
      have e1 : (if q1.queue_head == 0 then N - 1 else q1.queue_head - 1) =
          (q1.queue_tail + (q1.num_elements_stored - 1)) % N := by
        by_cases hc2 :
            (q1.queue_tail + (q1.num_elements_stored - 1)) % N + 1 = N
        · have hz : q1.queue_head = 0 := by
            rw [hhead2, hc2, Nat.mod_self]
          rw [if_pos (by simp [hz])]
          omega
        · have hz : q1.queue_head =
              (q1.queue_tail + (q1.num_elements_stored - 1)) % N + 1 := by
            rw [hhead2, Nat.mod_eq_of_lt (by omega)]
          rw [if_neg (by simp [hz])]
          omega
      rw [hb1, hb0, e1, hw, e2]

theorem traceV1_push_cons (N : Nat) (a : α) (ops : List (Op α))
    (q : SQueue α) :
    traceV1 N (Op.push a :: ops) q =
      ⟨some ((SQueue.push N a q).1 == Rc.OVERFLOW),
        SQueue.front (SQueue.push N a q).2,
        SQueue.back N (SQueue.push N a q).2,
        SQueue.size (SQueue.push N a q).2,
        SQueue.empty (SQueue.push N a q).2⟩ ::
      traceV1 N ops (SQueue.push N a q).2 := rfl

theorem traceV1_pop_cons (N : Nat) (ops : List (Op α)) (q : SQueue α) :
    traceV1 N (Op.pop :: ops) q =
      ⟨none, SQueue.front (SQueue.pop N q), SQueue.back N (SQueue.pop N q),
        SQueue.size (SQueue.pop N q), SQueue.empty (SQueue.pop N q)⟩ ::
      traceV1 N ops (SQueue.pop N q) := rfl

theorem traceV1_clear_cons (N : Nat) (ops : List (Op α)) (q : SQueue α) :
    traceV1 N (Op.clear :: ops) q =
      ⟨none, SQueue.front (SQueue.clear q), SQueue.back N (SQueue.clear q),
        SQueue.size (SQueue.clear q), SQueue.empty (SQueue.clear q)⟩ ::
      traceV1 N ops (SQueue.clear q) := rfl

theorem traceV0_push_cons (N : Nat) (a : α) (ops : List (Op α))
    (q : SQueue α) :
    traceV0 N (Op.push a :: ops) q =
      ⟨some ((SQueueV0.push N a q).1 == Toverflow.BUFFER_OVERFLOW),
        SQueueV0.front N (SQueueV0.push N a q).2,
        SQueueV0.back (SQueueV0.push N a q).2,
        SQueueV0.size (SQueueV0.push N a q).2,
        SQueueV0.empty (SQueueV0.push N a q).2⟩ ::
      traceV0 N ops (SQueueV0.push N a q).2 := rfl

theorem traceV0_pop_cons (N : Nat) (ops : List (Op α)) (q : SQueue α) :
    traceV0 N (Op.pop :: ops) q =
      ⟨none, SQueueV0.front N (SQueueV0.pop N q),
        SQueueV0.back (SQueueV0.pop N q), SQueueV0.size (SQueueV0.pop N q),
        SQueueV0.empty (SQueueV0.pop N q)⟩ ::
      traceV0 N ops (SQueueV0.pop N q) := rfl

theorem traceV0_clear_cons (N : Nat) (ops : List (Op α)) (q : SQueue α) :
    traceV0 N (Op.clear :: ops) q =
      ⟨none, SQueueV0.front N (SQueueV0.clear q),
        SQueueV0.back (SQueueV0.clear q), SQueueV0.size (SQueueV0.clear q),
        SQueueV0.empty (SQueueV0.clear q)⟩ ::
      traceV0 N ops (SQueueV0.clear q) := rfl

/-- Coupled states produce identical observation traces on every
operation sequence. -/
theorem trace_eq {N : Nat} (hN : 0 < N) :
    ∀ (ops : List (Op α)) (q1 q0 : SQueue α), SimR N q1 q0 →
      traceV1 N ops q1 = traceV0 N ops q0 := by
  intro ops
  induction ops with
  | nil => intro q1 q0 _; rfl
  | cons op ops ih =>
      intro q1 q0 hR
      cases op with
      | push a =>
          have hstep := simR_push hN hR a
          have hobs := obs_eq hstep.1
          rw [traceV1_push_cons, traceV0_push_cons, hstep.2, hobs.1,
            hobs.2.1, hobs.2.2.1, hobs.2.2.2, ih _ _ hstep.1]
      | pop =>
          have hR2 := simR_pop hR
          have hobs := obs_eq hR2
          rw [traceV1_pop_cons, traceV0_pop_cons, hobs.1, hobs.2.1,
            hobs.2.2.1, hobs.2.2.2, ih _ _ hR2]
      | clear =>
          have hR2 := simR_clear hN q1 q0
          have hobs := obs_eq hR2
          rw [traceV1_clear_cons, traceV0_clear_cons, hobs.1, hobs.2.1,
            hobs.2.2.1, hobs.2.2.2, ih _ _ hR2]

end TraceEquivalence

/-- C10: the v1.1.0 implementation (front at `tail`, write-then-increment
head) and the v1.0.0 implementation (front at `(tail + 1) mod N`,
increment-then-write head, no flag clearing on a non-full push) are
observationally equivalent: starting from their respective initial empty
states (with arbitrary uninitialized storage contents), every sequence
of push/pop/clear operations yields identical push return values and
identical `front`, `back`, `size` and `empty` results after every
step. -/
theorem C10_observational_equivalence {α : Type} (N : Nat) (hN : 0 < N)
    (ops : List (Op α)) (b b0 : Nat → α) :
    traceV1 N ops (SQueue.mkInit b) = traceV0 N ops (SQueueV0.mk0 b0) :=
  trace_eq hN ops _ _ (simR_init hN b b0)

theorem C10_observational_equivalence_witness :
    0 < 2 ∧
    traceV1 2 [Op.push 1, Op.push 2, Op.push 3, Op.pop, Op.push 4,
        Op.clear, Op.push 5, Op.pop, Op.pop]
        (SQueue.mkInit fun _ => (9 : Nat)) =
      traceV0 2 [Op.push 1, Op.push 2, Op.push 3, Op.pop, Op.push 4,
        Op.clear, Op.push 5, Op.pop, Op.pop]
        (SQueueV0.mk0 fun _ => (8 : Nat)) :=
  ⟨by decide,
    C10_observational_equivalence 2 (by decide)
      [Op.push 1, Op.push 2, Op.push 3, Op.pop, Op.push 4, Op.clear,
        Op.push 5, Op.pop, Op.pop] (fun _ => 9) (fun _ => 8)⟩

/-- C7: `clear()` sets head, tail and count to 0 and the overflow flag
to false, leaves the storage array untouched (not zeroed), and the queue
reports empty afterwards regardless of the prior state. -/
theorem C7_clear_resets {α : Type} (q : SQueue α) :
    (SQueue.clear q).queue_head = 0 ∧ (SQueue.clear q).queue_tail = 0 ∧
    (SQueue.clear q).num_elements_stored = 0 ∧
    (SQueue.clear q).queue_overflow = false ∧
    (SQueue.clear q).buffer = q.buffer ∧
    SQueue.empty (SQueue.clear q) = true :=
  ⟨rfl, rfl, rfl, rfl, rfl, rfl⟩
